import Mathlib

/-!
Verification of the route-matching / request-decoding engine of the
`from-request` (hyperdrive) repository, as a shallow embedding in Lean.

The definitions in the first half of this file are translated from
`src/derive/src/from_request/parse.rs` (path-pattern parsing, overlap
detection, the route table builder `PathMap::build`) and from the code
generated by `src/derive/src/from_request/mod.rs` (the regex-set matcher,
method dispatch with `find_accepted_methods`, fallback forwarding and the
`construct_variant` decode pipeline).  Rust panics (`panic!`, failed
`assert!`/`expect`) are modelled as `Except.error`.

Strings are processed through explicit structural helpers on `List Char`
so that every definition evaluates by kernel reduction; the helpers mirror
the Rust standard-library functions they replace (`str::split`,
`str::starts_with`, ...).
-/

namespace FromRequest

/-- Left curly brace character (written via its code so it can never be
confused with interpolation syntax). -/
def lbrace : Char := Char.ofNat 123

/-- Right curly brace character. -/
def rbrace : Char := Char.ofNat 125

/-- Mirrors Rust `str::split(sep)`: splits a character list at every
occurrence of `sep`, keeping empty pieces (so `"".split` is `[""]` and
`"/".split('/')` is `["", ""]`). -/
def splitOnChar (sep : Char) : List Char → List (List Char)
  | [] => [[]]
  | c :: rest =>
    if c == sep then [] :: splitOnChar sep rest
    else
      match splitOnChar sep rest with
      | [] => [[c]]
      | piece :: pieces => (c :: piece) :: pieces

/-- Joins path components with `/` (inverse of splitting a path tail). -/
def joinSlash : List String → String
  | [] => ""
  | [s] => s
  | s :: rest => s ++ "/" ++ joinSlash rest

/-- Lexicographic comparison of character lists by code point, mirroring
`Ord` on Rust strings (used only by the duplicate-placeholder check). -/
def charsLe : List Char → List Char → Bool
  | [], _ => true
  | _ :: _, [] => false
  | a :: as', b :: bs' =>
    if a == b then charsLe as' bs'
    else decide (a.toNat < b.toNat)

/-- Insertion of a string into a sorted list, for `sort` in the
duplicate-placeholder check of `RoutePath::parse`. -/
def insertSorted (s : String) : List String → List String
  | [] => [s]
  | t :: ts => if charsLe s.data t.data then s :: t :: ts else t :: insertSorted s ts

/-- Sorting, mirroring `Vec::sort` on the placeholder names. -/
def sortStrings (l : List String) : List String := l.foldr insertSorted []

/-- Mirrors Rust `Vec::dedup`: removes consecutive duplicates. -/
def dedupConsec : List String → List String
  | [] => []
  | [a] => [a]
  | a :: b :: rest =>
    if a == b then dedupConsec (b :: rest) else a :: dedupConsec (b :: rest)

/-- Translation of `valid_ident` from `parse.rs`: nonempty, not `"_"`,
first char alphabetic or `_`, remaining chars alphanumeric or `_`. -/
def valid_ident (s : List Char) : Bool :=
  if s.isEmpty || s == ['_'] then false
  else
    match s with
    | [] => false
    | c :: rest =>
      (c.isAlpha || c == '_') && rest.all (fun c => c.isAlphanum || c == '_')

/-- Segment of a request path pattern (`enum PathSegment` in `parse.rs`).
Placeholder and rest-placeholder names are `Ident`s in the source; they are
modelled as strings. -/
inductive PathSegment where
  /-- A single-segment placeholder `(ident)` written as a braced name. -/
  | Placeholder (ident : String)
  /-- A trailing rest placeholder, written as a braced name followed by
  three dots. -/
  | Rest (ident : String)
  /-- A literal path segment. -/
  | Literal (lit : String)
deriving DecidableEq, Repr

/-- Whether `inner` (the text between the braces) ends in `...`. -/
def endsWithDots (inner : List Char) : Bool :=
  decide (inner.length ≥ 3) && (inner.drop (inner.length - 3) == ['.', '.', '.'])

/-- Translation of `PathSegment::parse`.  A segment of the form
`{name}` is a `Placeholder`, `{name...}` a `Rest`; an invalid identifier
panics in the source, which is modelled as `Except.error`.  Anything not
delimited by braces is a `Literal`. -/
def PathSegment.parse (segment : String) : Except String PathSegment :=
  let cs := segment.data
  if cs.head? == some lbrace && cs.getLast? == some rbrace && decide (cs.length ≥ 2) then
    let inner := (cs.drop 1).dropLast
    if endsWithDots inner then
      let ident := inner.take (inner.length - 3)
      if valid_ident ident then .ok (.Rest (String.mk ident))
      else .error "placeholder must be a valid identifier"
    else
      if valid_ident inner then .ok (.Placeholder (String.mk inner))
      else .error "placeholder must be a valid identifier"
  else
    .ok (.Literal segment)

/-- A parsed path of an HTTP route (`struct RoutePath` in `parse.rs`).
The regex is not stored: it is recomputed by `regexOf` below, exactly as
`RoutePath::parse` builds it from the segments.  `segments` is empty iff
this is the asterisk path `*`. -/
structure RoutePath where
  /-- The original path specified in the attribute. -/
  raw : String
  /-- The segments making up the path; empty for the `*` path. -/
  segments : List PathSegment
  /-- Placeholder field names, in order of appearance. -/
  placeholders : List String
deriving DecidableEq, Repr

/-- Characters escaped by `regex_syntax::escape_into` (its
`is_meta_character` set). -/
def regexMetaChars : List Char :=
  ['\\', '.', '+', '*', '?', '(', ')', '|', '[', ']', lbrace, rbrace,
   '^', '$', '#', '&', '-', '~']

/-- Translation of `regex_syntax::escape_into`: every meta character is
preceded by a backslash. -/
def escapeChars (l : List Char) : List Char :=
  l.flatMap (fun c => if regexMetaChars.contains c then ['\\', c] else [c])

/-- The regex fragment contributed by one path segment, as built in the
loop of `RoutePath::parse`: a literal is escaped, a placeholder becomes
`([^/]+)` and a rest placeholder becomes `(.*)`, each preceded by `/`. -/
def segRegex : PathSegment → List Char
  | .Literal l => '/' :: escapeChars l.data
  | .Placeholder _ => '/' :: "([^/]+)".data
  | .Rest _ => '/' :: "(.*)".data

/-- The full regex string of a route path: `^...$` around the segment
fragments, or the unanchored `\*` for the asterisk path (note that
`RoutePath::parse` builds `Regex::new("\\*")` without anchors). -/
def regexOf (p : RoutePath) : List Char :=
  if p.segments.isEmpty then ['\\', '*']
  else '^' :: (p.segments.flatMap segRegex) ++ ['$']

/-- Translation of `RoutePath::matches_same_paths`: two route paths are
equivalent iff their regex strings are equal. -/
def matches_same_paths (a b : RoutePath) : Bool := regexOf a == regexOf b

/-- Collects the placeholder names of a segment list in order, failing
(like the source's panic) when a rest placeholder is not the final
segment. -/
def collectPlaceholders : List PathSegment → Except String (List String)
  | [] => .ok []
  | .Rest ident :: rest =>
    if rest.isEmpty then .ok [ident]
    else .error "...-placeholders must not be followed by anything"
  | .Placeholder ident :: rest => (collectPlaceholders rest).map (ident :: ·)
  | .Literal _ :: rest => collectPlaceholders rest

/-- Translation of `RoutePath::parse`.  The path `*` yields the empty
segment list; every other path must start with `/` and is split on `/`
with the leading empty piece skipped; each piece is parsed as a segment;
rest placeholders must be last and placeholder names must not repeat
(checked by sort + consecutive dedup, as in the source). -/
def RoutePath.parse (path : String) : Except String RoutePath :=
  if path == "*" then
    .ok { raw := path, segments := [], placeholders := [] }
  else if path.data.head? != some '/' then
    .error "paths of route attributes must start with `/`"
  else do
    let segs ← ((splitOnChar '/' path.data).drop 1).mapM
      (fun s => PathSegment.parse (String.mk s))
    let phs ← collectPlaceholders segs
    let sorted := sortStrings phs
    if (dedupConsec sorted).length != sorted.length then
      .error "duplicate placeholders in route path"
    else
      .ok { raw := path, segments := segs, placeholders := phs }

/-- Translation of `PathSegment::matching_string`: an example path segment
that would match the segment (for a rest placeholder the source appends
`...` to the identifier). -/
def matching_string : PathSegment → List Char
  | .Placeholder ident => ident.data
  | .Rest ident => ident.data ++ ['.', '.', '.']
  | .Literal lit => lit.data

/-- Result of the segment-comparison loop in `find_overlap`: either an
early `return` out of the loop, or normal loop exit carrying the overlap
built so far and the `saw_rest` flag. -/
inductive OverlapAcc where
  | early (res : Option (List Char))
  | done (overlap : List Char) (sawRest : Bool)
deriving DecidableEq, Repr

/-- The `find_overlap` loop after the left iterator got fused on a rest
placeholder `ra` (`SegmentsFused::Fused`): the left side yields `Rest ra`
indefinitely while the right side is consumed.  A rest on the right hits
the `(Rest, Rest)` arm, which pushes the left element's matching string
and returns early; any other right element hits the `(Rest, other)` arm,
pushing the other's matching string. -/
def restLoopL (ra : String) : List PathSegment → List Char → OverlapAcc
  | [], overlap => .done overlap true
  | .Rest _ :: _, overlap =>
    .early (some (overlap ++ '/' :: matching_string (.Rest ra)))
  | b :: bs, overlap => restLoopL ra bs (overlap ++ '/' :: matching_string b)

/-- Symmetric loop for a fused rest placeholder on the right side; the
`(Rest, Rest)` arm pushes the left element's matching string, so here the
pushed string comes from the list side. -/
def restLoopR (rb : String) : List PathSegment → List Char → OverlapAcc
  | [], overlap => .done overlap true
  | .Rest la :: _, overlap =>
    .early (some (overlap ++ '/' :: matching_string (.Rest la)))
  | a :: as', overlap => restLoopR rb as' (overlap ++ '/' :: matching_string a)

/-- The main `find_overlap` loop while neither iterator is fused, mirroring
the `for (a, b) in self.segments_fused().zip(other.segments_fused())` loop
of `parse.rs` arm by arm.  When one side yields a rest placeholder (and the
other does not), that side becomes fused and the loop continues in
`restLoopL`/`restLoopR` with `saw_rest` set. -/
def overlapLoop : List PathSegment → List PathSegment → List Char → OverlapAcc
  | [], _, overlap => .done overlap false
  | _ :: _, [], overlap => .done overlap false
  | .Rest ra :: _, .Rest _ :: _, overlap =>
    .early (some (overlap ++ '/' :: matching_string (.Rest ra)))
  | .Rest ra :: _, b :: bs, overlap =>
    restLoopL ra bs (overlap ++ '/' :: matching_string b)
  | a :: as', .Rest rb :: _, overlap =>
    restLoopR rb as' (overlap ++ '/' :: matching_string a)
  | .Placeholder pa :: as', .Placeholder _ :: bs, overlap =>
    overlapLoop as' bs (overlap ++ '/' :: pa.data)
  | .Placeholder _ :: as', .Literal lit :: bs, overlap =>
    overlapLoop as' bs (overlap ++ '/' :: lit.data)
  | .Literal lit :: as', .Placeholder _ :: bs, overlap =>
    overlapLoop as' bs (overlap ++ '/' :: lit.data)
  | .Literal la :: as', .Literal lb :: bs, overlap =>
    if la == lb then overlapLoop as' bs (overlap ++ '/' :: la.data)
    else .early none

/-- Translation of `RoutePath::find_overlap`.  The `*` path (empty segment
list) overlaps only with `*`.  When `self` is not `*` but `other` is, the
source calls `other.segments_fused()`, whose assertion fails: this panic is
modelled as `Except.error`.  Otherwise the comparison loop runs, and on
normal exit the overlap is returned only when the segment counts agree or
a rest placeholder was seen. -/
def RoutePath.find_overlap (self other : RoutePath) : Except String (Option String) :=
  if self.segments.isEmpty then
    .ok (if other.segments.isEmpty then some "*" else none)
  else if other.segments.isEmpty then
    .error "`*` path has no segments to iterate over"
  else
    .ok (match overlapLoop self.segments other.segments [] with
      | .early res => res.map String.mk
      | .done overlap sawRest =>
        if self.segments.length == other.segments.length || sawRest then
          some (String.mk overlap)
        else none)

/-- Decidable equality for `Except`, used to evaluate concrete runs. -/
instance {ε α : Type} [DecidableEq ε] [DecidableEq α] : DecidableEq (Except ε α) := fun a b =>
  match a, b with
  | .ok x, .ok y =>
    if h : x = y then .isTrue (by rw [h]) else .isFalse (by intro hc; cases hc; exact h rfl)
  | .error x, .error y =>
    if h : x = y then .isTrue (by rw [h]) else .isFalse (by intro hc; cases hc; exact h rfl)
  | .ok _, .error _ => .isFalse (by intro hc; cases hc)
  | .error _, .ok _ => .isFalse (by intro hc; cases hc)



/-! ## Compiled-matcher semantics

The derive compiles each route path to the regex given by `regexOf` and
matches request paths with `RegexSet::matches` / `Regex::captures`
(see `matching_regex` and `construct_variant` in `mod.rs`).  The matcher
is modelled semantically: an anchored regex `^/s1/s2...$` matches a path
iff the path starts with `/` and its slash-separated components match the
segments one by one; a rest placeholder `(.*)` consumes the whole
remainder (which therefore must contain at least one more component, i.e.
the separating `/` must be present), and since `.` in the regex crate does
not match a newline by default, the remainder must not contain a newline.
The `*` path compiles to the unanchored regex `\*`, which matches any
path containing an asterisk character. -/

/-- The slash-separated components of a request path after the mandatory
leading `/`; `none` when the path does not start with `/` (then no
anchored route regex can match). -/
def pathComps (path : String) : Option (List String) :=
  match path.data with
  | '/' :: rest => some ((splitOnChar '/' rest).map String.mk)
  | _ => none

/-- Capture extraction for the anchored regex of a segment list against
the component list of a path: a literal must be equal (its escaped form
matches exactly itself), a placeholder `([^/]+)` captures one nonempty
component, and a rest placeholder `(.*)` captures the slash-join of all
remaining components, provided at least one component remains and the
remainder contains no newline.  Returns the capture groups in order, or
`none` when the regex does not match.  (Rest placeholders only occur as
the final segment of a parsed route path.) -/
def segsCaptures : List PathSegment → List String → Option (List String)
  | [], [] => some []
  | .Rest _ :: _, c :: cs =>
    let rest := joinSlash (c :: cs)
    if rest.data.contains '\n' then none else some [rest]
  | .Placeholder _ :: ps, c :: cs =>
    if c.data.isEmpty then none else (segsCaptures ps cs).map (c :: ·)
  | .Literal l :: ps, c :: cs =>
    if c == l then segsCaptures ps cs else none
  | _, _ => none

/-- Whether the compiled regex of `p` matches the request path `path`
(the per-pattern test done by `ROUTES.matches(path)` in the generated
code).  For the `*` path the stored regex is the unanchored `\*`, so it
matches iff the path contains an asterisk. -/
def route_matches (p : RoutePath) (path : String) : Bool :=
  if p.segments.isEmpty then path.data.contains '*'
  else
    match pathComps path with
    | some cs => (segsCaptures p.segments cs).isSome
    | none => false

/-- The capture groups obtained by re-matching `path` with the pattern
regex (`REGEXES[index].captures(path)` in the generated code). -/
def routeCaptures (p : RoutePath) (path : String) : Option (List String) :=
  if p.segments.isEmpty then
    if route_matches p path then some [] else none
  else (pathComps path).bind (segsCaptures p.segments)

/-- Whether the compiled regex has any capture group (the
`regex.captures_len() > 0` test in `mod.rs`); placeholders and rest
placeholders each contribute one group. -/
def hasCaptures (segs : List PathSegment) : Bool :=
  segs.any (fun s =>
    match s with
    | .Placeholder _ => true
    | .Rest _ => true
    | .Literal _ => false)

/-! ## The route table (`PathMap`)

`PathMap::build` in `parse.rs` inserts every `(variant, method, route)`
triple into an `IndexMap` keyed by the regex string, after checking the
route for overlap against all previously inserted routes with a different
regex, and then synthesizes an implied HEAD route for every GET route that
does not overlap any declared HEAD route.  `IndexMap` preserves insertion
order and appends new keys at the end, which the list representation below
mirrors.  The model is generic in the payload type `V` (the source stores
a `VariantData`). -/

/-- HTTP methods (`http::Method` constants used by the derive). -/
inductive Method where
  | GET | HEAD | POST | PUT | DELETE | CONNECT | OPTIONS | TRACE | PATCH
deriving DecidableEq, Repr

/-- One group of the `regex_map`: all routes sharing one path regex.
`rep` is the route path of the first inserted route (its regex is the
map key), and `methods` is the insertion-ordered method map, each entry
keeping the variant payload and the route path it was declared with. -/
structure PGroup (V : Type) where
  /-- Route path of the first route inserted into this group. -/
  rep : RoutePath
  /-- The method map of this group, in insertion order. -/
  methods : List (Method × V × RoutePath)
deriving Repr, DecidableEq

/-- The route table: the groups of the `regex_map`, in insertion order. -/
abbrev PathMap (V : Type) := List (PGroup V)

/-- Looks up a method in a group\'s method map (first matching entry). -/
def findMethod {V : Type} (g : PGroup V) (m : Method) : Option (V × RoutePath) :=
  (g.methods.find? (fun e => e.1 == m)).map (fun e => e.2)

/-- Looks up the group whose regex key equals the regex of `p`. -/
def findGroup {V : Type} (tbl : PathMap V) (p : RoutePath) : Option (PGroup V) :=
  tbl.find? (fun g => matches_same_paths g.rep p)

/-- Looks up the route registered for `(p, m)`. -/
def lookupRoute {V : Type} (tbl : PathMap V) (p : RoutePath) (m : Method) :
    Option (V × RoutePath) :=
  (findGroup tbl p).bind (fun g => findMethod g m)

/-- Translation of `PathMap::add_route`: finds (or appends) the group
keyed by the regex of the route path and inserts the method entry,
panicking (modelled as `Except.error`) on a duplicate method within the
group. -/
def add_route {V : Type} : PathMap V → V → Method → RoutePath →
    Except String (PathMap V)
  | [], v, m, p => .ok [{ rep := p, methods := [(m, v, p)] }]
  | g :: gs, v, m, p =>
    if matches_same_paths g.rep p then
      if g.methods.any (fun e => e.1 == m) then
        .error "duplicate route"
      else
        .ok ({ rep := g.rep, methods := g.methods ++ [(m, v, p)] } :: gs)
    else
      (add_route gs v m p).map (g :: ·)

/-- All routes of the table, in iteration order of
`regex_map.values().flat_map(|m| m.values())`. -/
def all_routes {V : Type} (tbl : PathMap V) : List (Method × V × RoutePath) :=
  tbl.flatMap (fun g => g.methods)

/-- The overlap check performed before each insertion in `PathMap::build`:
every previously registered route whose regex differs from the new route
is compared with `find_overlap`; a found overlap panics (modelled as
`Except.error`), and a panic inside `find_overlap` itself propagates.
This helper iterates the previously registered routes in order. -/
def checkOverlapsGo {V : Type} (route : RoutePath) :
    List (Method × V × RoutePath) → Except String Unit
  | [] => .ok ()
  | (_, _, prev) :: rest =>
    if matches_same_paths prev route then checkOverlapsGo route rest
    else do
      match ← prev.find_overlap route with
      | some _ => .error "route overlaps with previously defined route"
      | none => checkOverlapsGo route rest

/-- The overlap check of `PathMap::build` for one new route against the
current table. -/
def check_overlaps {V : Type} (tbl : PathMap V) (route : RoutePath) :
    Except String Unit :=
  checkOverlapsGo route (all_routes tbl)

/-- The insertion loop of `PathMap::build`: for each entry (in
declaration order, variants outer and their routes inner, flattened),
check overlaps, then insert. -/
def insert_routes {V : Type} : PathMap V → List (V × Method × RoutePath) →
    Except String (PathMap V)
  | tbl, [] => .ok tbl
  | tbl, (v, m, p) :: rest => do
    check_overlaps tbl p
    let tbl' ← add_route tbl v m p
    insert_routes tbl' rest

/-- The paths of all HEAD routes currently in the table, in iteration
order (used by `any_head_overlaps_with`). -/
def head_routes {V : Type} (tbl : PathMap V) : List RoutePath :=
  (all_routes tbl).filterMap (fun e => if e.1 == Method.HEAD then some e.2.2 else none)

/-- Short-circuiting `Iterator::any` over the HEAD routes: does any
declared HEAD route overlap the candidate implied HEAD path `p`?  A panic
inside `find_overlap` propagates (and later routes are then not
examined). -/
def headOverlapAny (p : RoutePath) : List RoutePath → Except String Bool
  | [] => .ok false
  | q :: rest => do
    let o ← q.find_overlap p
    if o.isSome then .ok true else headOverlapAny p rest

/-- Translation of the `any_head_overlaps_with` closure in
`PathMap::build`. -/
def any_head_overlaps_with {V : Type} (tbl : PathMap V) (p : RoutePath) :
    Except String Bool :=
  headOverlapAny p (head_routes tbl)

/-- The collection loop for implied HEAD routes: for every GET route of
the table (in iteration order), the candidate HEAD route at the same path
is kept unless it overlaps a declared HEAD route.  The table `tbl` is the
state before any implied route is added, exactly as in the source (the
implied routes are collected first and added afterwards). -/
def collect_implied {V : Type} (tbl : PathMap V) :
    List (Method × V × RoutePath) → Except String (List (V × RoutePath))
  | [] => .ok []
  | (m, v, p) :: rest =>
    if m == Method.GET then do
      let overlaps ← any_head_overlaps_with tbl p
      let tail ← collect_implied tbl rest
      .ok (if overlaps then tail else (v, p) :: tail)
    else collect_implied tbl rest

/-- Adds the collected implied HEAD routes, in order, via `add_route`. -/
def add_implied {V : Type} : PathMap V → List (V × RoutePath) →
    Except String (PathMap V)
  | tbl, [] => .ok tbl
  | tbl, (v, p) :: rest => do
    let tbl' ← add_route tbl v Method.HEAD p
    add_implied tbl' rest

/-- Translation of `PathMap::build`: insert all declared routes with
overlap checking, then synthesize implied HEAD routes for GET routes
without an overlapping declared HEAD route. -/
def PathMap.build {V : Type} (entries : List (V × Method × RoutePath)) :
    Except String (PathMap V) := do
  let tbl ← insert_routes [] entries
  let implied ← collect_implied tbl (all_routes tbl)
  add_implied tbl implied

/-! ## Runtime decode semantics

The code generated by `derive_from_request` in `mod.rs` implements, for a
concrete route table, the body of `from_request_and_body`: match the path
against the regex set, dispatch on `(index, method)`, and construct the
matched variant with `construct_variant` (placeholder parsing, query
parsing, then a chain of futures running the guards in declaration order
followed by the body decoder or the nested forward).  The model below is
that generated program, parameterized by the route table.

The crate's `error` module (`src/error.rs`, declared in `src/src/lib.rs`)
is not present in the source tree; the error type below carries exactly
the data the generated code and the tests rely on (`ErrorKind`, the
allowed-methods list of `wrong_method`, and the source error of
`Error::with_source`). -/

/-- Errors produced during a decode.  `custom` stands for an opaque
`BoxedError` supplied by a guard or body decoder (propagated verbatim by
the generated code); the other constructors are the crate `Error` kinds
used by the generated code.  `internalBug` models a Rust panic. -/
inductive RErr where
  /-- No pattern matched and no fallback exists. -/
  | noMatchingRoute
  /-- Path matched, method did not; carries the allowed methods. -/
  | wrongMethod (allowed : List Method)
  /-- A placeholder failed to parse; carries the `FromStr` error. -/
  | pathSegment (source : String)
  /-- Query-string deserialization failed. -/
  | queryParam (source : String)
  /-- An opaque caller-supplied error from a guard or body decoder. -/
  | custom (source : String)
  /-- A Rust panic (an internal invariant violation). -/
  | internalBug (msg : String)
deriving DecidableEq, Repr

/-- Modelled from the spec: `src/error.rs` (declared by `mod error;` in
`src/src/lib.rs`) is missing from the source tree, so the HTTP status
associated with each error kind is taken from spec section 7:
`NoMatchingRoute` and `PathSegment` map to not-found semantics,
`WrongMethod` to method-not-allowed, `QueryParam` to a client-syntax
error; guard/body errors are opaque to the core (the tests only exercise
the 404 of `PathSegment`, which `tests/from_request.rs` asserts via
`error.http_status() == StatusCode::NOT_FOUND`). -/
def RErr.httpStatus : RErr → Nat
  | .noMatchingRoute => 404
  | .wrongMethod _ => 405
  | .pathSegment _ => 404
  | .queryParam _ => 400
  | .custom _ => 500
  | .internalBug _ => 500

/-- A future in the decode pipeline: a state transformer over the list of
guard invocations recorded so far (used to observe guard execution
order), returning the outcome.  Mirrors `futures 0.1` values chained with
`and_then`: a future is inert until polled, and `and_then` does not run
the continuation after a failure. -/
def Fut (α : Type) : Type := List String → List String × Except RErr α

/-- A completed successful future (`Ok(..).into_future()`). -/
def Fut.pure {α : Type} (a : α) : Fut α := fun tr => (tr, .ok a)

/-- A completed failed future (`Error::...().into_future()`). -/
def Fut.err {α : Type} (e : RErr) : Fut α := fun tr => (tr, .error e)

/-- A future from an already-computed result. -/
def Fut.ofExcept {α : Type} (r : Except RErr α) : Fut α := fun tr => (tr, r)

/-- Translation of `Future::and_then`: run `x`; on success feed the value
to `f`, on failure short-circuit (the continuation never runs). -/
def Fut.andThen {α β : Type} (x : Fut α) (f : α → Fut β) : Fut β := fun tr =>
  match x tr with
  | (tr', .ok a) => f a tr'
  | (tr', .error e) => (tr', .error e)

/-- Translation of `Future::map_err`. -/
def Fut.mapErr {α : Type} (x : Fut α) (f : RErr → RErr) : Fut α := fun tr =>
  match x tr with
  | (tr', .ok a) => (tr', .ok a)
  | (tr', .error e) => (tr', .error (f e))

/-- The request view consumed by the generated code: method, path and
query string (`request.method()`, `request.uri().path()`,
`request.uri().query()`).  The body stream is abstracted into the leaf's
body-decoder function. -/
structure Req where
  /-- The HTTP method of the request. -/
  method : Method
  /-- The request path (`uri().path()`). -/
  path : String
  /-- The raw query string, when present (`uri().query()`). -/
  query : Option String

/-- A guard field of a variant: its `Guard::from_request` capability.
Invoking it records the guard's name in the trace, so that execution
order is observable. -/
structure GuardSpec where
  /-- Name of the guard field. -/
  name : String
  /-- The guard's result on a given request (its headers view). -/
  run : Req → Except RErr Unit

/-- The invocation of a guard as a future (the
`<T as Guard>::from_request(..).into_future()` step). -/
def GuardSpec.fut (g : GuardSpec) (req : Req) : Fut Unit := fun tr =>
  (tr ++ [g.name], g.run req)

/-- The decode-relevant description of one constructible enum variant
with a route: the `FromStr` capabilities of its placeholder fields (in
placeholder order), the optional `#[query_params]` deserializer, its
guard fields in declaration order, and the optional `#[body]` decoder.
Decoded field values are abstracted to `Unit`; a decode outcome is
identified by the variant name. -/
structure LeafSpec where
  /-- Variant name. -/
  name : String
  /-- Per-placeholder `FromStr` capabilities, in placeholder order. -/
  phParsers : List (String → Except String Unit)
  /-- The `#[query_params]` field's deserializer, if any. -/
  queryParse : Option (String → Except String Unit)
  /-- Guard fields, in declaration order. -/
  guards : List GuardSpec
  /-- The `#[body]` field's `FromBody` capability, if any. -/
  bodyDecode : Option (Req → Except RErr Unit)

/-- A decoded value: the constructed variant, with the nested router's
value when the variant was the `#[forward]` fallback. -/
inductive Val where
  /-- A leaf variant, identified by name. -/
  | leaf (name : String)
  /-- The fallback variant wrapping the nested router's value. -/
  | fwd (name : String) (inner : Val)
deriving DecidableEq, Repr

/-- Sequential placeholder parsing: each captured segment is passed to
the corresponding field's `FromStr` capability, with an early return on
the first error (the `match ... Err(e) => return ...` in
`construct_variant`). -/
def parse_placeholders : List (String → Except String Unit) → List String →
    Except String Unit
  | [], _ => .ok ()
  | _, [] => .ok ()
  | f :: fs, c :: cs =>
    match f c with
    | .ok _ => parse_placeholders fs cs
    | .error e => .error e

/-- The placeholder step of `construct_variant`: skipped when the route
has no placeholders; otherwise the path is re-matched with the stored
regex (a failure to match is an unreachable `expect` in the source,
modelled as `internalBug`) and every capture is parsed, a failure
becoming `Error::with_source(ErrorKind::PathSegment, e)`. -/
def phStage (leaf : LeafSpec) (rep : RoutePath) (req : Req) : Except RErr Unit :=
  if leaf.phParsers.isEmpty then .ok ()
  else
    match routeCaptures rep req.path with
    | none => .error (.internalBug "regex first matched but now did not")
    | some caps =>
      match parse_placeholders leaf.phParsers caps with
      | .ok _ => .ok ()
      | .error e => .error (.pathSegment e)

/-- The query-parameter step of `construct_variant`: the raw query
string (empty when absent) is deserialized, a failure becoming
`Error::with_source(ErrorKind::QueryParam, e)`. -/
def queryStage (leaf : LeafSpec) (req : Req) : Except RErr Unit :=
  match leaf.queryParse with
  | none => .ok ()
  | some f =>
    match f (req.query.getD "") with
    | .ok _ => .ok ()
    | .error e => .error (.queryParam e)

/-- Translation of `construct_variant` for a routed variant: placeholder
parsing and query parsing run eagerly with early returns; then the final
future is built inside-out — the constructed value, wrapped by the body
decoder if present, wrapped by the guards in reverse declaration order so
that execution order matches declaration order. -/
def construct_variant (leaf : LeafSpec) (rep : RoutePath) (req : Req) : Fut Val :=
  match phStage leaf rep req with
  | .error e => Fut.err e
  | .ok _ =>
    match queryStage leaf req with
    | .error e => Fut.err e
    | .ok _ =>
      let base : Fut Val :=
        match leaf.bodyDecode with
        | some bd => (Fut.ofExcept (bd req)).andThen (fun _ => Fut.pure (.leaf leaf.name))
        | none => Fut.pure (.leaf leaf.name)
      leaf.guards.foldr (fun g acc => (g.fut req).andThen (fun _ => acc)) base

/-- Translation of the generated `variant_matches_path` closure: a
variant with no placeholders always matches; otherwise every placeholder
field's `FromStr` must succeed on the corresponding capture group.  The
captures are those of the group regex on the request path (each closure
recomputes them from the same regex in the source). -/
def variant_matches_path (leaf : LeafSpec) (caps : List String) : Bool :=
  (leaf.phParsers.zip caps).all (fun pc => (pc.1 pc.2).toBool)

/-- Translation of the generated `find_accepted_methods` expression: with
no capture groups the allowed set is the statically known method list of
the group; with placeholders, the methods of exactly those variants in
the group whose placeholder types parse the concrete captures.  The
`expect` on re-matching is modelled as `internalBug` (it is unreachable:
this code only runs when the group regex matched). -/
def find_accepted_methods (g : PGroup LeafSpec) (path : String) :
    Except RErr (List Method) :=
  if !hasCaptures g.rep.segments then
    .ok (g.methods.map (fun e => e.1))
  else
    match routeCaptures g.rep path with
    | none => .error (.internalBug "regex first matched but now did not")
    | some caps =>
      .ok ((g.methods.filter (fun e => variant_matches_path e.2.1 caps)).map
        (fun e => e.1))

/-- The `matching_regex` expression of the generated code:
`ROUTES.matches(path).iter().next()`, i.e. the least index of a group
whose regex matches the path (`RegexSet` yields indices in ascending
order). -/
def matchingIndex {V : Type} (groups : PathMap V) (path : String) : Option Nat :=
  groups.findIdx? (fun g => route_matches g.rep path)

mutual
/-- A route table as compiled into a `FromRequest` impl: the pattern
groups plus the optional fallback variant (the one whose `#[forward]`
field delegates to a nested router). -/
inductive Router where
  /-- A router: groups and fallback. -/
  | mk (groups : PathMap LeafSpec) (fallback : RouterFallback)

/-- The fallback of a router: absent, or a `#[forward]` variant with its
guard fields and the nested router. -/
inductive RouterFallback where
  /-- No fallback variant. -/
  | noFallback
  /-- A fallback variant: name, guard fields, nested router. -/
  | forward (name : String) (guards : List GuardSpec) (inner : Router)
end

/-- The future constructed for the fallback variant
(`construct_variant` for a variant with no route: no placeholders, no
query parameters; its guards wrap the `#[forward]` invocation of the
nested router, whose value is wrapped into the fallback variant). -/
def fallbackChain (name : String) (guards : List GuardSpec) (innerFut : Fut Val)
    (req : Req) : Fut Val :=
  guards.foldr (fun g acc => (g.fut req).andThen (fun _ => acc))
    (innerFut.andThen (fun v => Fut.pure (.fwd name v)))

/-- The error-merging `map_err` wrapped around the fallback future in the
wrong-method arm `(Some(#i), _)`: if the forwarded impl also failed with
`WrongMethod`, the outer group's accepted methods are prepended to the
inner allowed set; any other error passes through unchanged. -/
def mergeWrongMethod (g : PGroup LeafSpec) (path : String) : RErr → RErr
  | .wrongMethod innerMs =>
    (match find_accepted_methods g path with
    | .ok ours => .wrongMethod (ours ++ innerMs)
    | .error pe => pe)
  | e => e

/-- The dispatch of the generated `from_request_and_body` body after the
regex-set match: the `(index, method)` match with one arm per
`(group, method)` pair, a wrong-method arm per group, and the final
fallback / no-match arm.  `fb` is the fallback future when a fallback
variant exists. -/
def dispatch (groups : PathMap LeafSpec) (req : Req) (fb : Option (Fut Val)) :
    Fut Val :=
  match matchingIndex groups req.path with
  | some i =>
    match groups.get? i with
    | none => Fut.err (.internalBug "matched index out of range")
    | some g =>
      match findMethod g req.method with
      | some (leaf, _) => construct_variant leaf g.rep req
      | none =>
        match fb with
        | some fbFut => fbFut.mapErr (mergeWrongMethod g req.path)
        | none =>
          match find_accepted_methods g req.path with
          | .ok ms => Fut.err (.wrongMethod ms)
          | .error e => Fut.err e
  | none =>
    match fb with
    | some fbFut => fbFut
    | none => Fut.err .noMatchingRoute

/-- The generated `from_request_and_body` for a route table: dispatch,
with the fallback future (when a fallback variant exists) delegating to
the nested router's own `from_request_and_body`. -/
def Router.from_request : Router → Req → Fut Val
  | .mk groups .noFallback, req => dispatch groups req none
  | .mk groups (.forward name guards inner), req =>
    dispatch groups req (some (fallbackChain name guards (inner.from_request req) req))

/-! ## Concrete instances used by the claim theorems -/

/-- Digit-string evaluation (for the `u32` `FromStr` model). -/
def digitsToNat : List Char → Nat := List.foldl (fun n c => n * 10 + (c.toNat - 48)) 0

/-- The `FromStr` implementation of `u32` (used by placeholder fields of
type `u32` in the tests): an optional leading `+`, then decimal digits;
an empty string, a non-digit character, or overflow past `u32::MAX` fail
with the corresponding `std` error message. -/
def u32_from_str (s : String) : Except String Unit :=
  match s.data with
  | [] => .error "cannot parse integer from empty string"
  | c :: rest =>
    let digits := if c == '+' then rest else c :: rest
    if digits.isEmpty then .error "invalid digit found in string"
    else if digits.all Char.isDigit then
      if digitsToNat digits ≤ 4294967295 then .ok ()
      else .error "number too large to fit in target type"
    else .error "invalid digit found in string"

/-- A leaf with no placeholder, query, guard or body fields. -/
def plainLeaf (name : String) : LeafSpec :=
  { name := name, phParsers := [], queryParse := none, guards := [], bodyDecode := none }

/-- The `User` variant of the `user_app` test: `#[get("/users/...")]`
with a `u32` placeholder field `id`. -/
def userLeaf : LeafSpec :=
  { name := "User", phParsers := [u32_from_str], queryParse := none,
    guards := [], bodyDecode := none }

/-- The `PatchUser` variant of the `user_app` test: a `u32` placeholder
field and a `#[body]` field. -/
def patchUserLeaf : LeafSpec :=
  { name := "PatchUser", phParsers := [u32_from_str], queryParse := none,
    guards := [], bodyDecode := some (fun _ => .ok ()) }

/-- The route table of the GET/PATCH `/users/(id)` portion of the
`user_app` test, built by `PathMap.build`. -/
def userTableE : Except String (PathMap LeafSpec) := do
  let p ← RoutePath.parse "/users/{id}"
  PathMap.build [(userLeaf, Method.GET, p), (patchUserLeaf, Method.PATCH, p)]







/-- Whether the body-decode stage of a leaf succeeds on a request (used
as a hypothesis of the guard-order theorem). -/
def bodyOk (leaf : LeafSpec) (req : Req) : Prop :=
  ∀ bd, leaf.bodyDecode = some bd → bd req = .ok ()

/-- A guard that always succeeds (like `MyGuard` in the tests). -/
def gOk (n : String) : GuardSpec := { name := n, run := fun _ => .ok () }

/-- A guard that always fails with an opaque error. -/
def gBad (n : String) : GuardSpec :=
  { name := n, run := fun _ => .error (.custom "denied") }

/-- A target with three succeeding guards declared in order. -/
def guardLeafOk : LeafSpec :=
  { name := "T", phParsers := [], queryParse := none,
    guards := [gOk "g1", gOk "g2", gOk "g3"], bodyDecode := none }

/-- A target whose second guard fails. -/
def guardLeafBad : LeafSpec :=
  { name := "T", phParsers := [], queryParse := none,
    guards := [gOk "g1", gBad "g2", gOk "g3"], bodyDecode := none }

/-- The route path `/`. -/
def rootPath : RoutePath := { raw := "/", segments := [.Literal ""], placeholders := [] }

/-- The route path `/shared` of the `forward_allowed_methods` test. -/
def sharedPath : RoutePath :=
  { raw := "/shared", segments := [.Literal "shared"], placeholders := [] }

/-- A nested router declaring POST and GET on `/shared` (the `Inner` side
of the forwarding tests). -/
def innerRouter : Router :=
  .mk [{ rep := sharedPath,
         methods := [(.POST, plainLeaf "InnerShared", sharedPath),
                     (.GET, plainLeaf "InnerShared", sharedPath)] }] .noFallback

/-- An outer router declaring GET on `/shared` and forwarding everything
else to `innerRouter`, which declares the exact same path and method. -/
def outerRouter : Router :=
  .mk [{ rep := sharedPath, methods := [(.GET, plainLeaf "Shared", sharedPath)] }]
    (.forward "Fallback" [] innerRouter)

/-- A nested router declaring only POST `/shared`. -/
def mergeInner : Router :=
  .mk [{ rep := sharedPath, methods := [(.POST, plainLeaf "InnerShared", sharedPath)] }]
    .noFallback

/-- The outer `/shared` group of the merge test: GET plus the implied
HEAD. -/
def mergeOuterGroup : PGroup LeafSpec :=
  { rep := sharedPath,
    methods := [(.GET, plainLeaf "Shared", sharedPath),
                (.HEAD, plainLeaf "Shared", sharedPath)] }

/-- The route path `/users/(id)` with one placeholder. -/
def usersPath : RoutePath :=
  { raw := "/users/\x7bid\x7d",
    segments := [.Literal "users", .Placeholder "id"], placeholders := ["id"] }

/-- The table that `PathMap.build` produces for `userTableE`: one group
with GET, PATCH and the implied HEAD (pointing at the GET variant). -/
def userTable : PathMap LeafSpec :=
  [{ rep := usersPath,
     methods := [(.GET, userLeaf, usersPath), (.PATCH, patchUserLeaf, usersPath),
                 (.HEAD, userLeaf, usersPath)] }]

/-- A leaf whose placeholder parser accepts any segment. -/
def alwaysOkLeaf : LeafSpec :=
  { name := "Always", phParsers := [fun _ => .ok ()], queryParse := none,
    guards := [], bodyDecode := none }

/-- The route path of the pattern with a placeholder followed by a rest
placeholder, from the `any_placeholder` test. -/
def restPath : RoutePath :=
  { raw := "/\x7bph\x7d/\x7brest...\x7d",
    segments := [.Placeholder "ph", .Rest "rest"], placeholders := ["ph", "rest"] }


/-- The regex keys of the groups of a table, in order. -/
def keysOf (tbl : PathMap V) : List (List Char) := tbl.map (fun g => regexOf g.rep)

/-- The route path `/2/other` from the `implicit_head_route` test. -/
def otherPath : RoutePath :=
  { raw := "/2/other", segments := [.Literal "2", .Literal "other"], placeholders := [] }

/-- The entries of the `implicit_head_route` test: GET `/`, GET and
explicit HEAD `/2/other`. -/
def c3entries : List (String × Method × RoutePath) :=
  [("Index", Method.GET, rootPath), ("Other", Method.GET, otherPath),
   ("OtherHead", Method.HEAD, otherPath)]

/-- The table `PathMap.build` produces for `c3entries`: an implied HEAD
for `/` pointing at `Index`, and the explicit HEAD for `/2/other`. -/
def c3table : PathMap String :=
  [{ rep := rootPath,
     methods := [(.GET, "Index", rootPath), (.HEAD, "Index", rootPath)] },
   { rep := otherPath,
     methods := [(.GET, "Other", otherPath), (.HEAD, "OtherHead", otherPath)] }]

/-! ## Theorems -/

/-- Regression check mirroring the `overlap` unit test of `parse.rs`
(every assertion of that test, in order). -/
theorem find_overlap_unit_tests :
    [("/", "/literal", .ok none), ("/", "/", .ok (some "/")),
     ("/a", "/b", .ok none), ("/abc", "/abc", .ok (some "/abc")),
     ("/\x7ba\x7d", "/b", .ok (some "/b")),
     ("/a", "/\x7bb\x7d", .ok (some "/a")),
     ("/\x7ba\x7d", "/\x7bb\x7d", .ok (some "/a")),
     ("/\x7ba\x7d/", "/\x7bb\x7d", .ok none),
     ("/\x7ba\x7d/", "/\x7bb\x7d/lit", .ok none),
     ("/\x7ba\x7d/\x7bx\x7d", "/\x7bb\x7d/\x7by\x7d", .ok (some "/a/x")),
     ("/\x7ba\x7d/\x7bx...\x7d", "/\x7bb\x7d", .ok none),
     ("/\x7ba\x7d/\x7bx...\x7d", "/\x7bb...\x7d", .ok (some "/a/x...")),
     ("/lit/\x7bx...\x7d", "/\x7bb...\x7d", .ok (some "/lit/x...")),
     ("/lit/bla", "/\x7bb...\x7d", .ok (some "/lit/bla")),
     ("/lit/bla", "/lit/\x7bb...\x7d", .ok (some "/lit/bla")),
     ("/lit/bla", "/blit/\x7bb...\x7d", .ok none),
     ("*", "/\x7bb...\x7d", .ok none), ("*", "/", .ok none),
     ("*", "*", .ok (some "*"))].all
      (fun t =>
        decide (((do
          let a ← RoutePath.parse t.1
          let b ← RoutePath.parse t.2.1
          a.find_overlap b) : Except String (Option String)) = t.2.2)) = true := by
  decide

/-- C1: the claim fails on the code.  `find_overlap` applied to the
patterns `/(a)` (one placeholder segment) and `/` (one empty literal
segment) returns the example path `/`, yet `/` is not matched by the
first pattern's compiled regex `^/([^/]+)$` (the character class requires
at least one character): the `(Placeholder, Literal)` arm of the loop
pushes the empty literal, producing an example that the placeholder side
cannot match.  This contradicts both the claim and `find_overlap`'s own
documentation ("Tries to find a route that can be matched by both"). -/
theorem find_overlap_spurious_example :
    ((do
      let a ← RoutePath.parse "/{a}"
      let b ← RoutePath.parse "/"
      let ov ← a.find_overlap b
      pure (ov, route_matches a "/", route_matches b "/")) :
        Except String (Option String × Bool × Bool))
      = .ok (some "/", false, true) := by decide

/-- C2: the claim fails on the code.  The table declaring
`#[options("*")]` and `#[get("/a*b")]` builds successfully
(`find_overlap` reports no overlap between `*` and any regular path), but
the request path `/a*b` is matched by the compiled matchers of BOTH
pattern groups: the `*` pattern's regex is the unanchored `\*`, which
matches any path containing an asterisk, while `^/a\*b$` matches the
path literally.  The generated code's own
`debug_assert!(matches.iter().count() <= 1, "internal error: FromRequest
derive produced overlapping regexes")` is violated on this input. -/
theorem overlapping_matchers_example :
    ((do
      let p1 ← RoutePath.parse "*"
      let p2 ← RoutePath.parse "/a*b"
      let tbl ← PathMap.build [("Star", Method.OPTIONS, p1), ("Lit", Method.GET, p2)]
      pure ((tbl.filter (fun g => route_matches g.rep "/a*b")).length)) :
        Except String Nat)
      = .ok 2 := by decide

/-- C8: the claim fails on the code.  `RoutePath::parse` compiles the
pattern `*` to `Regex::new("\\*")` WITHOUT anchors, and `RegexSet` /
`Regex::is_match` search for a match anywhere in the path, so the `*`
pattern matches every request path containing an asterisk character, such
as `/a*b` — not only the literal request-target `*`.  (It does match `*`
itself and does reject `/`, as the `asterisk` test checks.) -/
theorem asterisk_pattern_unanchored_example :
    (RoutePath.parse "*").map
      (fun p => (route_matches p "/a*b", route_matches p "/", route_matches p "*"))
      = .ok (true, false, true) := by decide

/-- C5: guards run in declaration order and short-circuit.  For a target
whose guard fields are `G1, G2, G3` in that order (and whose placeholder
and query stages succeed), a decode in which all guards succeed records
the invocation trace `[G1, G2, G3]` and succeeds, and a decode in which
`G2` fails records exactly `[G1, G2]` — so `G3` is never invoked — and
fails with `G2`'s own error, propagated unchanged. -/

theorem guard_order (leaf : LeafSpec) (rep : RoutePath) (req : Req)
    (g1 g2 g3 : GuardSpec) (tr : List String) (e : RErr)
    (hg : leaf.guards = [g1, g2, g3])
    (hph : phStage leaf rep req = .ok ())
    (hq : queryStage leaf req = .ok ()) :
    (g1.run req = .ok () → g2.run req = .ok () → g3.run req = .ok () →
      bodyOk leaf req →
      construct_variant leaf rep req tr
        = (tr ++ [g1.name, g2.name, g3.name], .ok (.leaf leaf.name)))
    ∧ (g1.run req = .ok () → g2.run req = .error e →
      construct_variant leaf rep req tr = (tr ++ [g1.name, g2.name], .error e)) := by
  constructor
  · intro h1 h2 h3 hb
    simp only [construct_variant, hph, hq, hg, List.foldr]
    cases hbd : leaf.bodyDecode with
    | none =>
      simp [Fut.andThen, GuardSpec.fut, Fut.pure, h1, h2, h3, hbd, List.append_assoc]
    | some bd =>
      have hbr := hb bd hbd
      simp [Fut.andThen, GuardSpec.fut, Fut.pure, Fut.ofExcept, h1, h2, h3, hbd, hbr,
        List.append_assoc]
  · intro h1 h2
    simp only [construct_variant, hph, hq, hg, List.foldr]
    simp [Fut.andThen, GuardSpec.fut, h1, h2, List.append_assoc]

/-- C7: when the request's path matches an explicitly declared group of
the outer table and the group's method map accepts the request method,
the decode is exactly the construction of that outer variant — the result
does not depend on the fallback at all (the statement holds for every
fallback `fb`, including a nested router declaring the same path and
method); the fallback arms of the generated match are reached only when
no outer route accepts the (path, method) pair. -/

theorem forward_precedence (groups : PathMap LeafSpec) (fb : RouterFallback)
    (req : Req) (i : Nat) (g : PGroup LeafSpec) (leaf : LeafSpec) (rt : RoutePath)
    (hidx : matchingIndex groups req.path = some i)
    (hg : groups[i]? = some g)
    (hm : findMethod g req.method = some (leaf, rt)) :
    (Router.mk groups fb).from_request req = construct_variant leaf g.rep req := by
  cases fb <;> simp [Router.from_request, dispatch, hidx, hg, hm]

/-- C9: when the outer table's matched group does not accept the method
and the forwarded fallback also fails with `WrongMethod`, the resulting
error carries the outer group's computed methods first, followed by the
inner router's allowed methods (`our_methods.extend(inner_methods)` in
the generated `map_err`). -/

theorem forward_wrong_method_merge (groups : PathMap LeafSpec)
    (name : String) (guards : List GuardSpec) (inner : Router) (req : Req)
    (i : Nat) (g : PGroup LeafSpec) (innerMs ours : List Method)
    (tr tr' : List String)
    (hidx : matchingIndex groups req.path = some i)
    (hg : groups[i]? = some g)
    (hm : findMethod g req.method = none)
    (hfb : fallbackChain name guards (inner.from_request req) req tr
      = (tr', .error (.wrongMethod innerMs)))
    (hours : find_accepted_methods g req.path = .ok ours) :
    (Router.mk groups (.forward name guards inner)).from_request req tr
      = (tr', .error (.wrongMethod (ours ++ innerMs))) := by
  simp [Router.from_request, dispatch, hidx, hg, hm, Fut.mapErr, hfb,
    mergeWrongMethod, hours]

/-- C6: when the path matches a pattern with placeholders but a captured
segment fails the field type's `FromStr`, the decode fails immediately
with a `PathSegment` error carrying the underlying parse error — the
result is the same for every fallback and regardless of any other group
(no other candidate route is tried), no guard ever runs (the trace is
unchanged), and the error kind maps to not-found semantics (HTTP 404). -/

theorem placeholder_parse_failure (groups : PathMap LeafSpec) (fb : RouterFallback)
    (req : Req) (i : Nat) (g : PGroup LeafSpec) (leaf : LeafSpec) (rt : RoutePath)
    (caps : List String) (e : String) (tr : List String)
    (hidx : matchingIndex groups req.path = some i)
    (hg : groups[i]? = some g)
    (hm : findMethod g req.method = some (leaf, rt))
    (hne : leaf.phParsers ≠ [])
    (hcaps : routeCaptures g.rep req.path = some caps)
    (hparse : parse_placeholders leaf.phParsers caps = .error e) :
    (Router.mk groups fb).from_request req tr = (tr, .error (.pathSegment e)) ∧
    RErr.httpStatus (.pathSegment e) = 404 := by
  have hne' : leaf.phParsers.isEmpty = false := by
    cases hl : leaf.phParsers with
    | nil => exact absurd hl hne
    | cons a b => simp
  refine ⟨?_, rfl⟩
  cases fb <;>
    simp [Router.from_request, dispatch, hidx, hg, hm, construct_variant, phStage,
      hne', hcaps, hparse, Fut.err]

/-- Witness for the guard-order theorem: two concrete three-guard
targets, one all-succeeding, one with the second guard failing. -/

theorem guard_order_witness :
    (construct_variant guardLeafOk rootPath ⟨.GET, "/", none⟩ []
      = (["g1", "g2", "g3"], .ok (.leaf "T"))) ∧
    (construct_variant guardLeafBad rootPath ⟨.GET, "/", none⟩ []
      = (["g1", "g2"], .error (.custom "denied"))) := by
  constructor
  · exact (guard_order guardLeafOk rootPath ⟨.GET, "/", none⟩ (gOk "g1") (gOk "g2") (gOk "g3")
      [] (.custom "x") rfl rfl rfl).1 rfl rfl rfl (fun bd h => by simp [guardLeafOk] at h)
  · exact (guard_order guardLeafBad rootPath ⟨.GET, "/", none⟩ (gOk "g1") (gBad "g2") (gOk "g3")
      [] (.custom "denied") rfl rfl rfl).2 rfl rfl

/-- Witness for forward precedence: the outer router wins over a nested
router declaring GET on the exact same path `/shared`. -/

theorem forward_precedence_witness :
    outerRouter.from_request ⟨.GET, "/shared", none⟩ [] = ([], .ok (.leaf "Shared")) := by
  have h := forward_precedence [{ rep := sharedPath, methods := [(.GET, plainLeaf "Shared", sharedPath)] }]
    (.forward "Fallback" [] innerRouter) ⟨.GET, "/shared", none⟩ 0
    { rep := sharedPath, methods := [(.GET, plainLeaf "Shared", sharedPath)] }
    (plainLeaf "Shared") sharedPath rfl rfl rfl
  calc outerRouter.from_request ⟨.GET, "/shared", none⟩ []
      = construct_variant (plainLeaf "Shared") sharedPath ⟨.GET, "/shared", none⟩ [] := congrFun h []
    _ = ([], .ok (.leaf "Shared")) := by decide

/-- Witness for the allowed-method merge: `PUT /shared` against an outer
GET+HEAD group with a POST-only forwarded router yields
`[GET, HEAD, POST]`, as in the `forward_allowed_methods` test. -/

theorem forward_wrong_method_merge_witness :
    (Router.mk [mergeOuterGroup] (.forward "Fallback" [] mergeInner)).from_request
      ⟨.PUT, "/shared", none⟩ []
      = ([], .error (.wrongMethod [.GET, .HEAD, .POST])) := by
  exact forward_wrong_method_merge [mergeOuterGroup] "Fallback" [] mergeInner
    ⟨.PUT, "/shared", none⟩ 0 mergeOuterGroup [.POST] [.GET, .HEAD] [] []
    rfl rfl rfl (by decide) rfl

/-- Building the GET/PATCH `/users/(id)` table indeed produces
`userTable`, with the implied HEAD route pointing at the GET variant. -/

theorem userTable_is_built : userTableE = .ok userTable := rfl

/-- Witness mirroring the `user_app` test: `GET /users/not-a-number`
yields the `PathSegment` error of the `u32` parser, with 404 status. -/

theorem placeholder_parse_failure_witness :
    (Router.mk userTable .noFallback).from_request ⟨.GET, "/users/not-a-number", none⟩ []
      = ([], .error (.pathSegment "invalid digit found in string")) ∧
    RErr.httpStatus (.pathSegment "invalid digit found in string") = 404 := by
  exact placeholder_parse_failure userTable .noFallback ⟨.GET, "/users/not-a-number", none⟩ 0
    { rep := usersPath, methods := [(.GET, userLeaf, usersPath), (.PATCH, patchUserLeaf, usersPath), (.HEAD, userLeaf, usersPath)] }
    userLeaf usersPath ["not-a-number"] "invalid digit found in string" []
    rfl rfl rfl (List.cons_ne_nil _ _) rfl rfl

/-- In a list with pairwise-distinct method keys, the payload of a key is
unique. -/

lemma key_mem_unique {α : Type} :
    ∀ (l : List (Method × α)) (m : Method) (a b : α),
      (l.map Prod.fst).Nodup → (m, a) ∈ l → (m, b) ∈ l → a = b := by
  intro l
  induction l with
  | nil => intro m a b _ ha; cases ha
  | cons e t ih =>
    intro m a b hnd ha hb
    simp only [List.map_cons, List.nodup_cons] at hnd
    rcases List.mem_cons.mp ha with h1 | h1 <;> rcases List.mem_cons.mp hb with h2 | h2
    · exact congrArg Prod.snd (h1.trans h2.symm)
    · exfalso; cases h1; exact hnd.1 (List.mem_map.mpr ⟨(m, b), h2, rfl⟩)
    · exfalso; cases h2; exact hnd.1 (List.mem_map.mpr ⟨(m, a), h1, rfl⟩)
    · exact ih m a b hnd.2 h1 h2

/-- C4: the table with GET and PATCH on `/users/(id)` (and the implied
HEAD) rejects `POST /users/0` with `WrongMethod` carrying exactly
`[GET, PATCH, HEAD]`; and in general, in a placeholder group with
distinct method keys, a variant one of whose placeholder parsers fails on
the concrete captures is excluded from the allowed set computed by
`find_accepted_methods`. -/

theorem wrong_method_allowed_set :
    ((userTableE.map (fun tbl =>
        (Router.mk tbl .noFallback).from_request ⟨.POST, "/users/0", none⟩ []))
      = .ok ([], .error (.wrongMethod [.GET, .PATCH, .HEAD]))) ∧
    (∀ (g : PGroup LeafSpec) (path : String) (caps : List String) (m : Method)
       (leaf : LeafSpec) (rt : RoutePath) (pr : String → Except String Unit)
       (c : String) (ms : List Method),
       hasCaptures g.rep.segments = true →
       routeCaptures g.rep path = some caps →
       (g.methods.map Prod.fst).Nodup →
       (m, leaf, rt) ∈ g.methods →
       (pr, c) ∈ leaf.phParsers.zip caps →
       (pr c).toBool = false →
       find_accepted_methods g path = .ok ms →
       m ∉ ms) := by
  constructor
  · decide
  · intro g path caps m leaf rt pr c ms hcap hcaps hnd hmem hzip hfail hfa hin
    simp [find_accepted_methods, hcap, hcaps] at hfa
    cases hfa
    rcases List.mem_map.mp hin with ⟨e, hef, hem⟩
    rcases List.mem_filter.mp hef with ⟨hemem, hvm⟩
    obtain ⟨m', l', rt'⟩ := e
    cases hem
    have : (l', rt') = (leaf, rt) := key_mem_unique g.methods m' _ _ hnd hemem hmem
    cases this
    have := List.all_eq_true.mp hvm (pr, c) hzip
    rw [hfail] at this
    cases this

/-- Appending a rest placeholder to a rest-free segment list: component
lists that exactly match the prefix do not match the extended pattern
(the rest placeholder's `/` separator is missing), and adding one final
empty component matches with the rest capture empty. -/

lemma segs_rest_behavior :
    ∀ (pre : List PathSegment) (r : String) (cs caps : List String),
      (∀ s ∈ pre, ∀ n, s ≠ PathSegment.Rest n) →
      segsCaptures pre cs = some caps →
      segsCaptures (pre ++ [.Rest r]) cs = none ∧
      segsCaptures (pre ++ [.Rest r]) (cs ++ [""]) = some (caps ++ [""]) := by
  intro pre
  induction pre with
  | nil =>
    intro r cs caps _ h
    cases cs with
    | nil =>
      simp [segsCaptures] at h
      subst h
      exact ⟨rfl, by simp [segsCaptures, joinSlash]⟩
    | cons c ct => simp [segsCaptures] at h
  | cons s pt ih =>
    intro r cs caps hnr h
    cases s with
    | Rest n => exact absurd rfl (hnr _ (List.mem_cons_self _ _) n)
    | Placeholder n =>
      cases cs with
      | nil => simp [segsCaptures] at h
      | cons c ct =>
        by_cases hemp : c.data.isEmpty = true
        · simp [segsCaptures, hemp] at h
        · simp only [segsCaptures, hemp, if_false, Bool.false_eq_true, if_neg] at h
          rcases Option.map_eq_some'.mp h with ⟨caps', hc', rfl⟩
          have hx := ih r ct caps' (fun s hs => hnr s (List.mem_cons_of_mem _ hs)) hc'
          constructor
          · show segsCaptures (.Placeholder n :: (pt ++ [.Rest r])) (c :: ct) = none
            simp [segsCaptures, hemp, hx.1]
          · show segsCaptures (.Placeholder n :: (pt ++ [.Rest r])) (c :: (ct ++ [""]))
              = some ((c :: caps') ++ [""])
            simp [segsCaptures, hemp, hx.2]
    | Literal l =>
      cases cs with
      | nil => simp [segsCaptures] at h
      | cons c ct =>
        by_cases heq : c == l
        · simp only [segsCaptures, heq, if_pos] at h
          have hx := ih r ct caps (fun s hs => hnr s (List.mem_cons_of_mem _ hs)) h
          constructor
          · show segsCaptures (.Literal l :: (pt ++ [.Rest r])) (c :: ct) = none
            simp [segsCaptures, heq, hx.1]
          · show segsCaptures (.Literal l :: (pt ++ [.Rest r])) (c :: (ct ++ [""]))
              = some (caps ++ [""])
            simp [segsCaptures, heq, hx.2]
        · simp [segsCaptures, heq] at h

/-- C10: for a pattern ending in a rest placeholder after non-rest
segments, a request path that provides exactly the preceding components
but lacks the separating slash does not match at all, while the same path
with the trailing slash matches with the rest placeholder capturing the
empty string. -/

theorem rest_placeholder_separator (pre : List PathSegment) (r : String)
    (p1 p2 : String) (cs caps : List String) (rp : RoutePath)
    (hnr : ∀ s ∈ pre, ∀ n, s ≠ PathSegment.Rest n)
    (hc1 : pathComps p1 = some cs)
    (hmatch : segsCaptures pre cs = some caps)
    (hc2 : pathComps p2 = some (cs ++ [""]))
    (hseg : rp.segments = pre ++ [.Rest r]) :
    route_matches rp p1 = false ∧ routeCaptures rp p2 = some (caps ++ [""]) := by
  have hx := segs_rest_behavior pre r cs caps hnr hmatch
  have hne : rp.segments.isEmpty = false := by rw [hseg]; cases pre <;> simp
  constructor
  · simp [route_matches, hne, hc1, hseg, hx.1]
  · simp [routeCaptures, hne, hc2, hseg, hx.2]

/-- Witness mirroring the `any_placeholder` test: `/1234` does not match
the pattern with a rest placeholder, `/1234/` matches with rest `""`. -/

theorem rest_placeholder_separator_witness :
    route_matches restPath "/1234" = false ∧
    routeCaptures restPath "/1234/" = some ["1234", ""] := by
  exact rest_placeholder_separator [.Placeholder "ph"] "rest" "/1234" "/1234/"
    ["1234"] ["1234"] restPath (by simp) rfl rfl rfl rfl

/-- Witness for the exclusion half: with a failing `u32` capture `x`,
GET is excluded from the accepted set (only the always-parsing PATCH
variant remains). -/

theorem wrong_method_allowed_set_witness :
    Method.GET ∉ [Method.PATCH] := by
  exact wrong_method_allowed_set.2
    { rep := usersPath, methods := [(.GET, userLeaf, usersPath), (.PATCH, alwaysOkLeaf, usersPath)] }
    "/users/x" ["x"] .GET userLeaf usersPath u32_from_str "x" [.PATCH]
    rfl rfl (by decide) (List.Mem.head _) (List.Mem.head _) rfl rfl

end FromRequest

namespace FromRequest
section BuildLemmas

variable {V : Type}

lemma find?_append_none {α : Type} (l l2 : List α) (f : α → Bool)
    (h : l.find? f = none) : (l ++ l2).find? f = l2.find? f := by
  induction l with
  | nil => rfl
  | cons a t ih =>
    cases hf : f a with
    | true => rw [List.find?_cons_of_pos _ hf] at h; cases h
    | false =>
      have hf' : ¬ f a = true := by simp [hf]
      rw [List.find?_cons_of_neg _ hf'] at h
      rw [List.cons_append, List.find?_cons_of_neg _ hf']
      exact ih h

lemma find?_append_some {α : Type} (l l2 : List α) (f : α → Bool) (x : α)
    (h : l.find? f = some x) : (l ++ l2).find? f = some x := by
  induction l with
  | nil => cases h
  | cons a t ih =>
    cases hf : f a with
    | true =>
      rw [List.find?_cons_of_pos _ hf] at h
      rw [List.cons_append, List.find?_cons_of_pos _ hf]
      exact h
    | false =>
      have hf' : ¬ f a = true := by simp [hf]
      rw [List.find?_cons_of_neg _ hf'] at h
      rw [List.cons_append, List.find?_cons_of_neg _ hf']
      exact ih h

lemma find?_of_any_false {α : Type} (l : List α) (f : α → Bool)
    (h : l.any f = false) : l.find? f = none := by
  induction l with
  | nil => rfl
  | cons a t ih =>
    rw [List.any_cons, Bool.or_eq_false_iff] at h
    have hf' : ¬ f a = true := by simp [h.1]
    rw [List.find?_cons_of_neg _ hf']
    exact ih h.2

/-- Inserting a route makes it visible under its own key and method. -/
lemma lookupRoute_add_route :
    ∀ (tbl : PathMap V) (v : V) (m : Method) (p : RoutePath) (tbl' : PathMap V),
      add_route tbl v m p = .ok tbl' → lookupRoute tbl' p m = some (v, p) := by
  intro tbl
  induction tbl with
  | nil =>
    intro v m p tbl' h
    simp only [add_route, Except.ok.injEq] at h
    subst h
    simp [lookupRoute, findGroup, findMethod, matches_same_paths, List.find?]
  | cons g gs ih =>
    intro v m p tbl' h
    simp only [add_route] at h
    cases hkey : matches_same_paths g.rep p with
    | true =>
      rw [hkey] at h
      simp only [if_true] at h
      cases hdup : g.methods.any (fun e => e.1 == m) with
      | true => rw [hdup] at h; simp only [if_true] at h; cases h
      | false =>
        rw [hdup] at h
        simp only [if_false, Except.ok.injEq, Bool.false_eq_true] at h
        subst h
        have hfind : (g.methods ++ [(m, v, p)]).find? (fun e => e.1 == m)
            = some (m, v, p) := by
          rw [find?_append_none _ _ _ (find?_of_any_false _ _ hdup)]
          simp [List.find?]
        have hpos : (fun g : PGroup V => matches_same_paths g.rep p)
            { rep := g.rep, methods := g.methods ++ [(m, v, p)] } = true := hkey
        unfold lookupRoute findGroup findMethod
        rw [@List.find?_cons_of_pos _ (fun g : PGroup V => matches_same_paths g.rep p)
          _ gs hpos]
        simp [hfind]
    | false =>
      rw [hkey] at h
      simp only [if_false, Bool.false_eq_true] at h
      cases hrec : add_route gs v m p with
      | error e => rw [hrec] at h; cases h
      | ok t =>
        rw [hrec] at h
        simp only [Except.map, Except.ok.injEq] at h
        subst h
        have hkey' : ¬ (fun g : PGroup V => matches_same_paths g.rep p) g = true := by
          simp [hkey]
        unfold lookupRoute findGroup
        rw [@List.find?_cons_of_neg _ (fun g : PGroup V => matches_same_paths g.rep p)
          _ t hkey']
        exact ih v m p t hrec

end BuildLemmas
end FromRequest
namespace FromRequest
section BuildLemmas2

variable {V : Type}

/-- Inserting a route preserves every lookup that already succeeded. -/
lemma lookupRoute_add_route_preserve :
    ∀ (tbl : PathMap V) (v : V) (m : Method) (p : RoutePath) (tbl' : PathMap V)
      (q : RoutePath) (m' : Method) (x : V × RoutePath),
      add_route tbl v m p = .ok tbl' → lookupRoute tbl q m' = some x →
      lookupRoute tbl' q m' = some x := by
  intro tbl
  induction tbl with
  | nil =>
    intro v m p tbl' q m' x _ hl
    simp [lookupRoute, findGroup, List.find?] at hl
  | cons g gs ih =>
    intro v m p tbl' q m' x h hl
    simp only [add_route] at h
    cases hkey : matches_same_paths g.rep p with
    | true =>
      rw [hkey] at h
      simp only [if_true] at h
      cases hdup : g.methods.any (fun e => e.1 == m) with
      | true => rw [hdup] at h; simp only [if_true] at h; cases h
      | false =>
        rw [hdup] at h
        simp only [if_false, Except.ok.injEq, Bool.false_eq_true] at h
        subst h
        cases hq : matches_same_paths g.rep q with
        | true =>
          have hq1 : (fun g : PGroup V => matches_same_paths g.rep q) g = true := hq
          have hq2 : (fun g : PGroup V => matches_same_paths g.rep q)
              { rep := g.rep, methods := g.methods ++ [(m, v, p)] } = true := hq
          unfold lookupRoute findGroup findMethod at hl ⊢
          rw [@List.find?_cons_of_pos _ (fun g : PGroup V => matches_same_paths g.rep q)
            _ gs hq1] at hl
          rw [@List.find?_cons_of_pos _ (fun g : PGroup V => matches_same_paths g.rep q)
            _ gs hq2]
          simp only [Option.some_bind] at hl ⊢
          cases hfm : g.methods.find? (fun e => e.1 == m') with
          | none => rw [hfm] at hl; cases hl
          | some e =>
            rw [hfm] at hl
            rw [find?_append_some _ _ _ _ hfm]
            exact hl
        | false =>
          have hq1 : ¬ (fun g : PGroup V => matches_same_paths g.rep q) g = true := by
            simp [hq]
          have hq2 : ¬ (fun g : PGroup V => matches_same_paths g.rep q)
              { rep := g.rep, methods := g.methods ++ [(m, v, p)] } = true := by
            simp [hq]
          unfold lookupRoute findGroup at hl ⊢
          rw [@List.find?_cons_of_neg _ (fun g : PGroup V => matches_same_paths g.rep q)
            _ gs hq1] at hl
          rw [@List.find?_cons_of_neg _ (fun g : PGroup V => matches_same_paths g.rep q)
            _ gs hq2]
          exact hl
    | false =>
      rw [hkey] at h
      simp only [if_false, Bool.false_eq_true] at h
      cases hrec : add_route gs v m p with
      | error e => rw [hrec] at h; cases h
      | ok t =>
        rw [hrec] at h
        simp only [Except.map, Except.ok.injEq] at h
        subst h
        cases hq : matches_same_paths g.rep q with
        | true =>
          have hq1 : (fun g : PGroup V => matches_same_paths g.rep q) g = true := hq
          unfold lookupRoute findGroup at hl ⊢
          rw [@List.find?_cons_of_pos _ (fun g : PGroup V => matches_same_paths g.rep q)
            _ gs hq1] at hl
          rw [@List.find?_cons_of_pos _ (fun g : PGroup V => matches_same_paths g.rep q)
            _ t hq1]
          exact hl
        | false =>
          have hq1 : ¬ (fun g : PGroup V => matches_same_paths g.rep q) g = true := by
            simp [hq]
          unfold lookupRoute findGroup at hl ⊢
          rw [@List.find?_cons_of_neg _ (fun g : PGroup V => matches_same_paths g.rep q)
            _ gs hq1] at hl
          rw [@List.find?_cons_of_neg _ (fun g : PGroup V => matches_same_paths g.rep q)
            _ t hq1]
          exact ih v m p t q m' x hrec hl

end BuildLemmas2
end FromRequest
namespace FromRequest
section BuildLemmas3

variable {V : Type}

/-- Inversion of a successful `Except` bind. -/
lemma except_bind_ok {ε α β : Type} (x : Except ε α) (f : α → Except ε β) (b : β)
    (h : (x >>= f) = .ok b) : ∃ a, x = .ok a ∧ f a = .ok b := by
  cases x with
  | error e => simp [Bind.bind, Except.bind] at h
  | ok a => exact ⟨a, rfl, by simpa [Bind.bind, Except.bind] using h⟩

/-- The insertion loop preserves lookups. -/
lemma insert_routes_preserve :
    ∀ (l : List (V × Method × RoutePath)) (tbl tbl2 : PathMap V) (q : RoutePath)
      (m' : Method) (x : V × RoutePath),
      insert_routes tbl l = .ok tbl2 → lookupRoute tbl q m' = some x →
      lookupRoute tbl2 q m' = some x := by
  intro l
  induction l with
  | nil =>
    intro tbl tbl2 q m' x h hl
    simp only [insert_routes, Except.ok.injEq] at h
    subst h; exact hl
  | cons e rest ih =>
    intro tbl tbl2 q m' x h hl
    obtain ⟨v, m, p⟩ := e
    simp only [insert_routes] at h
    obtain ⟨u, _, h⟩ := except_bind_ok _ _ _ h
    obtain ⟨t1, ht1, h⟩ := except_bind_ok _ _ _ h
    exact ih t1 tbl2 q m' x h (lookupRoute_add_route_preserve tbl v m p t1 q m' x ht1 hl)

/-- Every entry given to a successful insertion loop is afterwards found
under its own path and method. -/
lemma insert_routes_mem :
    ∀ (l : List (V × Method × RoutePath)) (tbl tbl2 : PathMap V) (v : V)
      (m : Method) (p : RoutePath),
      insert_routes tbl l = .ok tbl2 → (v, m, p) ∈ l →
      lookupRoute tbl2 p m = some (v, p) := by
  intro l
  induction l with
  | nil => intro tbl tbl2 v m p _ hm; cases hm
  | cons e rest ih =>
    intro tbl tbl2 v m p h hm
    obtain ⟨v', m', p'⟩ := e
    simp only [insert_routes] at h
    obtain ⟨u, hu, h2⟩ := except_bind_ok _ _ _ h
    obtain ⟨t1, ht1, h3⟩ := except_bind_ok _ _ _ h2
    rcases List.mem_cons.mp hm with heq | hmem
    · injection heq with h1 hrest
      injection hrest with hm1 hp1
      subst h1; subst hm1; subst hp1
      exact insert_routes_preserve rest t1 tbl2 p m (v, p) h3
        (lookupRoute_add_route tbl v m p t1 ht1)
    · exact ih t1 tbl2 v m p h3 hmem

end BuildLemmas3
end FromRequest
namespace FromRequest
section BuildLemmas4

variable {V : Type}

/-- Provenance through one insertion: a route of the new table was
already present or is the inserted one. -/
lemma all_routes_add_route :
    ∀ (tbl : PathMap V) (v : V) (m : Method) (p : RoutePath) (tbl' : PathMap V)
      (e : Method × V × RoutePath),
      add_route tbl v m p = .ok tbl' → e ∈ all_routes tbl' →
      e ∈ all_routes tbl ∨ e = (m, v, p) := by
  intro tbl
  induction tbl with
  | nil =>
    intro v m p tbl' e h he
    simp only [add_route, Except.ok.injEq] at h
    subst h
    simp [all_routes] at he
    exact Or.inr he
  | cons g gs ih =>
    intro v m p tbl' e h he
    simp only [add_route] at h
    cases hkey : matches_same_paths g.rep p with
    | true =>
      rw [hkey] at h
      simp only [if_true] at h
      cases hdup : g.methods.any (fun x => x.1 == m) with
      | true => rw [hdup] at h; simp only [if_true] at h; cases h
      | false =>
        rw [hdup] at h
        simp only [if_false, Except.ok.injEq, Bool.false_eq_true] at h
        subst h
        simp only [all_routes, List.flatMap_cons, List.mem_append] at he ⊢
        rcases he with he | he
        · rcases he with he | he
          · exact Or.inl (Or.inl he)
          · simp at he; exact Or.inr he
        · exact Or.inl (Or.inr he)
    | false =>
      rw [hkey] at h
      simp only [if_false, Bool.false_eq_true] at h
      cases hrec : add_route gs v m p with
      | error er => rw [hrec] at h; cases h
      | ok t =>
        rw [hrec] at h
        simp only [Except.map, Except.ok.injEq] at h
        subst h
        simp only [all_routes, List.flatMap_cons, List.mem_append] at he ⊢
        rcases he with he | he
        · exact Or.inl (Or.inl he)
        · rcases ih v m p t e hrec (by simpa [all_routes] using he) with hx | hx
          · exact Or.inl (Or.inr (by simpa [all_routes] using hx))
          · exact Or.inr hx

/-- Provenance through the insertion loop: a route of the final table was
in the initial table or among the inserted entries. -/
lemma all_routes_insert_routes :
    ∀ (l : List (V × Method × RoutePath)) (tbl tbl2 : PathMap V)
      (e : Method × V × RoutePath),
      insert_routes tbl l = .ok tbl2 → e ∈ all_routes tbl2 →
      e ∈ all_routes tbl ∨ (e.2.1, e.1, e.2.2) ∈ l := by
  intro l
  induction l with
  | nil =>
    intro tbl tbl2 e h he
    simp only [insert_routes, Except.ok.injEq] at h
    subst h
    exact Or.inl he
  | cons ent rest ih =>
    intro tbl tbl2 e h he
    obtain ⟨v, m, p⟩ := ent
    simp only [insert_routes] at h
    obtain ⟨u, hu, h2⟩ := except_bind_ok _ _ _ h
    obtain ⟨t1, ht1, h3⟩ := except_bind_ok _ _ _ h2
    rcases ih t1 tbl2 e h3 he with hx | hx
    · rcases all_routes_add_route tbl v m p t1 e ht1 hx with hy | hy
      · exact Or.inl hy
      · subst hy; exact Or.inr (List.mem_cons_self _ _)
    · exact Or.inr (List.mem_cons_of_mem _ hx)

/-- A successful lookup exhibits a member of `all_routes`. -/
lemma lookupRoute_mem :
    ∀ (tbl : PathMap V) (p : RoutePath) (m : Method) (v : V) (rt : RoutePath),
      lookupRoute tbl p m = some (v, rt) → (m, v, rt) ∈ all_routes tbl := by
  intro tbl p m v rt h
  unfold lookupRoute at h
  cases hfg : findGroup tbl p with
  | none => rw [hfg] at h; cases h
  | some g =>
    rw [hfg] at h
    simp only [Option.some_bind] at h
    unfold findMethod at h
    cases hfm : g.methods.find? (fun e => e.1 == m) with
    | none => rw [hfm] at h; cases h
    | some e =>
      rw [hfm] at h
      simp only [Option.map_some'] at h
      have hpm := @List.find?_some _ (fun x : Method × V × RoutePath => x.1 == m)
        e g.methods hfm
      have hgmem : g ∈ tbl := List.mem_of_find?_eq_some hfg
      have hemem : e ∈ g.methods := List.mem_of_find?_eq_some hfm
      have hm : e.1 = m := by simpa using hpm
      injection h with h
      have he2 : e = (m, v, rt) := by
        obtain ⟨m2, rest⟩ := e
        dsimp only at hm h
        rw [hm, h]
      rw [he2] at hemem
      exact List.mem_flatMap.mpr ⟨g, hgmem, hemem⟩

end BuildLemmas4
end FromRequest
namespace FromRequest
section BuildLemmas5

variable {V : Type}

/-- When no declared HEAD route overlaps the candidate, the
short-circuiting `any` reports false. -/
lemma headOverlapAny_false :
    ∀ (l : List RoutePath) (p : RoutePath),
      (∀ q ∈ l, q.find_overlap p = .ok none) → headOverlapAny p l = .ok false := by
  intro l
  induction l with
  | nil => intro p _; rfl
  | cons q rest ih =>
    intro p h
    have hq := h q (List.mem_cons_self _ _)
    simp only [headOverlapAny]
    rw [hq]
    simpa [Bind.bind, Except.bind, Option.isSome] using
      ih p (fun r hr => h r (List.mem_cons_of_mem _ hr))

/-- Every member of `head_routes` is the path of a HEAD route of the
table. -/
lemma head_routes_mem :
    ∀ (tbl : PathMap V) (q : RoutePath),
      q ∈ head_routes tbl → ∃ w, (Method.HEAD, w, q) ∈ all_routes tbl := by
  intro tbl q h
  unfold head_routes at h
  rcases List.mem_filterMap.mp h with ⟨e, hemem, he⟩
  obtain ⟨m, w, rt⟩ := e
  by_cases hm : m = Method.HEAD
  · subst hm
    simp only [beq_self_eq_true, if_true] at he
    injection he with he
    subst he
    exact ⟨w, hemem⟩
  · have : (m == Method.HEAD) = false := by simpa using hm
    simp only [this] at he
    simp at he

/-- The implied-HEAD collection keeps every GET route whose candidate
HEAD does not overlap a declared HEAD route. -/
lemma collect_implied_mem :
    ∀ (l : List (Method × V × RoutePath)) (tbl : PathMap V)
      (ihs : List (V × RoutePath)) (v : V) (p : RoutePath),
      collect_implied tbl l = .ok ihs → (Method.GET, v, p) ∈ l →
      any_head_overlaps_with tbl p = .ok false → (v, p) ∈ ihs := by
  intro l
  induction l with
  | nil => intro tbl ihs v p _ hm; cases hm
  | cons e rest ih =>
    intro tbl ihs v p h hm hov
    obtain ⟨m, w, rt⟩ := e
    rcases List.mem_cons.mp hm with heq | hmem
    · injection heq with h1 hrest
      injection hrest with h2 h3
      subst h1; subst h2; subst h3
      simp only [collect_implied, beq_self_eq_true, if_true] at h
      rw [hov] at h
      obtain ⟨b, hb, h2⟩ := except_bind_ok _ _ _ h
      obtain ⟨tail, htail, h3⟩ := except_bind_ok _ _ _ h2
      injection hb with hb
      subst hb
      injection h3 with h3
      subst h3
      simp
    · simp only [collect_implied] at h
      cases hmh : (m == Method.GET) with
      | true =>
        rw [hmh] at h
        simp only [if_true] at h
        obtain ⟨b, hb, h2⟩ := except_bind_ok _ _ _ h
        obtain ⟨tail, htail, h3⟩ := except_bind_ok _ _ _ h2
        injection h3 with h3
        subst h3
        have := ih tbl tail v p htail hmem hov
        cases b <;> simp [this]
      | false =>
        rw [hmh] at h
        simp only [if_false, Bool.false_eq_true] at h
        exact ih tbl ihs v p h hmem hov

/-- Adding the implied HEAD routes preserves lookups. -/
lemma add_implied_preserve :
    ∀ (l : List (V × RoutePath)) (tbl tbl2 : PathMap V) (q : RoutePath)
      (m : Method) (x : V × RoutePath),
      add_implied tbl l = .ok tbl2 → lookupRoute tbl q m = some x →
      lookupRoute tbl2 q m = some x := by
  intro l
  induction l with
  | nil =>
    intro tbl tbl2 q m x h hl
    simp only [add_implied, Except.ok.injEq] at h
    subst h; exact hl
  | cons e rest ih =>
    intro tbl tbl2 q m x h hl
    obtain ⟨v, p⟩ := e
    simp only [add_implied] at h
    obtain ⟨t1, ht1, h2⟩ := except_bind_ok _ _ _ h
    exact ih t1 tbl2 q m x h2 (lookupRoute_add_route_preserve tbl v Method.HEAD p t1 q m x ht1 hl)

/-- Every collected implied HEAD route is found in the final table. -/
lemma add_implied_mem :
    ∀ (l : List (V × RoutePath)) (tbl tbl2 : PathMap V) (v : V) (p : RoutePath),
      add_implied tbl l = .ok tbl2 → (v, p) ∈ l →
      lookupRoute tbl2 p Method.HEAD = some (v, p) := by
  intro l
  induction l with
  | nil => intro tbl tbl2 v p _ hm; cases hm
  | cons e rest ih =>
    intro tbl tbl2 v p h hm
    obtain ⟨v', p'⟩ := e
    simp only [add_implied] at h
    obtain ⟨t1, ht1, h2⟩ := except_bind_ok _ _ _ h
    rcases List.mem_cons.mp hm with heq | hmem
    · injection heq with h1 h2'
      subst h1; subst h2'
      exact add_implied_preserve rest t1 tbl2 p Method.HEAD (v, p) h2
        (lookupRoute_add_route tbl v Method.HEAD p t1 ht1)
    · exact ih t1 tbl2 v p h2 hmem

end BuildLemmas5
end FromRequest
namespace FromRequest
section BuildLemmas6

variable {V : Type}



/-- One insertion either reuses an existing group key or appends the new
route's key at the end. -/
lemma keysOf_add_route :
    ∀ (tbl : PathMap V) (v : V) (m : Method) (p : RoutePath) (tbl' : PathMap V),
      add_route tbl v m p = .ok tbl' →
      keysOf tbl' = keysOf tbl ∨ keysOf tbl' = keysOf tbl ++ [regexOf p] := by
  intro tbl
  induction tbl with
  | nil =>
    intro v m p tbl' h
    simp only [add_route, Except.ok.injEq] at h
    subst h
    exact Or.inr rfl
  | cons g gs ih =>
    intro v m p tbl' h
    simp only [add_route] at h
    cases hkey : matches_same_paths g.rep p with
    | true =>
      rw [hkey] at h
      simp only [if_true] at h
      cases hdup : g.methods.any (fun x => x.1 == m) with
      | true => rw [hdup] at h; simp only [if_true] at h; cases h
      | false =>
        rw [hdup] at h
        simp only [if_false, Except.ok.injEq, Bool.false_eq_true] at h
        subst h
        exact Or.inl rfl
    | false =>
      rw [hkey] at h
      simp only [if_false, Bool.false_eq_true] at h
      cases hrec : add_route gs v m p with
      | error er => rw [hrec] at h; cases h
      | ok t =>
        rw [hrec] at h
        simp only [Except.map, Except.ok.injEq] at h
        subst h
        rcases ih v m p t hrec with hx | hx
        · exact Or.inl (by simp [keysOf, keysOf] at hx ⊢; exact hx)
        · exact Or.inr (by simp [keysOf] at hx ⊢; exact hx)

/-- Insertion keeps the group keys pairwise distinct. -/
lemma nodup_add_route :
    ∀ (tbl : PathMap V) (v : V) (m : Method) (p : RoutePath) (tbl' : PathMap V),
      add_route tbl v m p = .ok tbl' → (keysOf tbl).Nodup → (keysOf tbl').Nodup := by
  intro tbl
  induction tbl with
  | nil =>
    intro v m p tbl' h _
    simp only [add_route, Except.ok.injEq] at h
    subst h
    simp [keysOf]
  | cons g gs ih =>
    intro v m p tbl' h hnd
    simp only [add_route] at h
    cases hkey : matches_same_paths g.rep p with
    | true =>
      rw [hkey] at h
      simp only [if_true] at h
      cases hdup : g.methods.any (fun x => x.1 == m) with
      | true => rw [hdup] at h; simp only [if_true] at h; cases h
      | false =>
        rw [hdup] at h
        simp only [if_false, Except.ok.injEq, Bool.false_eq_true] at h
        subst h
        simpa [keysOf] using hnd
    | false =>
      rw [hkey] at h
      simp only [if_false, Bool.false_eq_true] at h
      cases hrec : add_route gs v m p with
      | error er => rw [hrec] at h; cases h
      | ok t =>
        rw [hrec] at h
        simp only [Except.map, Except.ok.injEq] at h
        subst h
        simp only [keysOf, List.map_cons, List.nodup_cons] at hnd ⊢
        refine ⟨?_, ih v m p t hrec hnd.2⟩
        intro hmem
        rcases keysOf_add_route gs v m p t hrec with hx | hx
        · rw [show t.map (fun g => regexOf g.rep) = keysOf t from rfl, hx] at hmem
          exact hnd.1 hmem
        · rw [show t.map (fun g => regexOf g.rep) = keysOf t from rfl, hx] at hmem
          rcases List.mem_append.mp hmem with hy | hy
          · exact hnd.1 hy
          · simp only [List.mem_singleton] at hy
            have : matches_same_paths g.rep p = true := by
              simp [matches_same_paths, hy]
            rw [hkey] at this; cases this

/-- The insertion loop keeps the group keys pairwise distinct. -/
lemma nodup_insert_routes :
    ∀ (l : List (V × Method × RoutePath)) (tbl tbl2 : PathMap V),
      insert_routes tbl l = .ok tbl2 → (keysOf tbl).Nodup → (keysOf tbl2).Nodup := by
  intro l
  induction l with
  | nil =>
    intro tbl tbl2 h hnd
    simp only [insert_routes, Except.ok.injEq] at h
    subst h; exact hnd
  | cons e rest ih =>
    intro tbl tbl2 h hnd
    obtain ⟨v, m, p⟩ := e
    simp only [insert_routes] at h
    obtain ⟨u, hu, h2⟩ := except_bind_ok _ _ _ h
    obtain ⟨t1, ht1, h3⟩ := except_bind_ok _ _ _ h2
    exact ih t1 tbl2 h3 (nodup_add_route tbl v m p t1 ht1 hnd)

/-- Adding implied HEAD routes keeps the group keys pairwise distinct. -/
lemma nodup_add_implied :
    ∀ (l : List (V × RoutePath)) (tbl tbl2 : PathMap V),
      add_implied tbl l = .ok tbl2 → (keysOf tbl).Nodup → (keysOf tbl2).Nodup := by
  intro l
  induction l with
  | nil =>
    intro tbl tbl2 h hnd
    simp only [add_implied, Except.ok.injEq] at h
    subst h; exact hnd
  | cons e rest ih =>
    intro tbl tbl2 h hnd
    obtain ⟨v, p⟩ := e
    simp only [add_implied] at h
    obtain ⟨t1, ht1, h2⟩ := except_bind_ok _ _ _ h
    exact ih t1 tbl2 h2 (nodup_add_route tbl v Method.HEAD p t1 ht1 hnd)

/-- With pairwise-distinct keys, any group whose key matches the looked-up
path is the group `findGroup` returns. -/
lemma findGroup_unique :
    ∀ (tbl : PathMap V) (P : RoutePath) (g g' : PGroup V),
      (keysOf tbl).Nodup → findGroup tbl P = some g → g' ∈ tbl →
      matches_same_paths g'.rep P = true → g' = g := by
  intro tbl
  induction tbl with
  | nil => intro P g g' _ hfg hm; cases hm
  | cons h t ih =>
    intro P g g' hnd hfg hm hk
    simp only [keysOf, List.map_cons, List.nodup_cons] at hnd
    cases hp : matches_same_paths h.rep P with
    | true =>
      have hp1 : (fun x : PGroup V => matches_same_paths x.rep P) h = true := hp
      unfold findGroup at hfg
      rw [@List.find?_cons_of_pos _ (fun x : PGroup V => matches_same_paths x.rep P)
        _ t hp1] at hfg
      injection hfg with hfg
      subst hfg
      rcases List.mem_cons.mp hm with rfl | hm'
      · rfl
      · exfalso
        have h1 : regexOf g'.rep = regexOf P := by
          simpa [matches_same_paths] using hk
        have h2 : regexOf h.rep = regexOf P := by
          simpa [matches_same_paths] using hp
        refine hnd.1 ?_
        have hx : regexOf h.rep ∈ keysOf t := by
          rw [h2, ← h1]
          exact List.mem_map.mpr ⟨g', hm', rfl⟩
        exact hx
    | false =>
      have hp1 : ¬ (fun x : PGroup V => matches_same_paths x.rep P) h = true := by
        simp [hp]
      unfold findGroup at hfg
      rw [@List.find?_cons_of_neg _ (fun x : PGroup V => matches_same_paths x.rep P)
        _ t hp1] at hfg
      rcases List.mem_cons.mp hm with rfl | hm'
      · rw [hk] at hp; cases hp
      · exact ih P g g' hnd.2 hfg hm' hk

end BuildLemmas6
end FromRequest
namespace FromRequest
section C3Main

variable {V : Type}

/-- An element found by position is a member of the list. -/
lemma mem_of_getElemOpt {α : Type} :
    ∀ (l : List α) (i : Nat) (a : α), l[i]? = some a → a ∈ l := by
  intro l
  induction l with
  | nil => intro i a h; cases h
  | cons x t ih =>
    intro i a h
    cases i with
    | zero =>
      simp only [List.getElem?_cons_zero] at h
      injection h with h
      subst h
      exact List.mem_cons_self _ _
    | succ j =>
      simp only [List.getElem?_cons_succ] at h
      exact List.mem_cons_of_mem _ (ih j a h)

/-- C3 (amended): for every successfully built route table and GET route
at path P, if no declared HEAD route find_overlaps P then the built table
maps HEAD in P's pattern-group to the same variant as GET (the implied
HEAD), and if an explicit HEAD route is declared for P then that explicit
variant is the group's HEAD entry; consequently a HEAD request resolves to
that variant PROVIDED the group matched by the request's path is P's
pattern-group — the proviso the counterexample forces, since the
unanchored `*` matcher can steal a path from P's group. -/
theorem implicit_head_amended (entries : List (V × Method × RoutePath))
    (tbl : PathMap V) (P : RoutePath)
    (hb : PathMap.build entries = .ok tbl) :
    (∀ v : V, (v, Method.GET, P) ∈ entries →
      (∀ (w : V) (Q : RoutePath), (w, Method.HEAD, Q) ∈ entries →
        Q.find_overlap P = .ok none) →
      lookupRoute tbl P Method.HEAD = some (v, P) ∧
      ∀ (path : String) (i : Nat) (g' : PGroup V),
        matchingIndex tbl path = some i → tbl[i]? = some g' →
        matches_same_paths g'.rep P = true →
        findMethod g' Method.HEAD = some (v, P))
    ∧ (∀ w : V, (w, Method.HEAD, P) ∈ entries →
      lookupRoute tbl P Method.HEAD = some (w, P) ∧
      ∀ (path : String) (i : Nat) (g' : PGroup V),
        matchingIndex tbl path = some i → tbl[i]? = some g' →
        matches_same_paths g'.rep P = true →
        findMethod g' Method.HEAD = some (w, P)) := by
  unfold PathMap.build at hb
  obtain ⟨tbl1, h1, hb2⟩ := except_bind_ok _ _ _ hb
  obtain ⟨ihs, h2, h3⟩ := except_bind_ok _ _ _ hb2
  have hnodup : (keysOf tbl).Nodup :=
    nodup_add_implied ihs tbl1 tbl h3
      (nodup_insert_routes entries [] tbl1 h1 (by simp [keysOf]))
  have resolve : ∀ (x : V × RoutePath), lookupRoute tbl P Method.HEAD = some x →
      ∀ (path : String) (i : Nat) (g' : PGroup V),
        matchingIndex tbl path = some i → tbl[i]? = some g' →
        matches_same_paths g'.rep P = true → findMethod g' Method.HEAD = some x := by
    intro x hl path i g' _ hget hk
    unfold lookupRoute at hl
    cases hfg : findGroup tbl P with
    | none => rw [hfg] at hl; cases hl
    | some g =>
      rw [hfg] at hl
      simp only [Option.some_bind] at hl
      have hmem : g' ∈ tbl := mem_of_getElemOpt tbl i g' hget
      have hgg : g' = g := findGroup_unique tbl P g g' hnodup hfg hmem hk
      rw [hgg]
      exact hl
  constructor
  · intro v hget hnohead
    have hlook1 : lookupRoute tbl1 P Method.GET = some (v, P) :=
      insert_routes_mem entries [] tbl1 v Method.GET P h1 hget
    have hmem1 : (Method.GET, v, P) ∈ all_routes tbl1 :=
      lookupRoute_mem tbl1 P Method.GET v P hlook1
    have hov : any_head_overlaps_with tbl1 P = .ok false := by
      apply headOverlapAny_false
      intro q hq
      obtain ⟨w, hwq⟩ := head_routes_mem tbl1 q hq
      rcases all_routes_insert_routes entries [] tbl1 _ h1 hwq with hx | hx
      · simp [all_routes] at hx
      · exact hnohead w q hx
    have hin : (v, P) ∈ ihs :=
      collect_implied_mem (all_routes tbl1) tbl1 ihs v P h2 hmem1 hov
    have hl : lookupRoute tbl P Method.HEAD = some (v, P) :=
      add_implied_mem ihs tbl1 tbl v P h3 hin
    exact ⟨hl, resolve (v, P) hl⟩
  · intro w hhead
    have hlook1 : lookupRoute tbl1 P Method.HEAD = some (w, P) :=
      insert_routes_mem entries [] tbl1 w Method.HEAD P h1 hhead
    have hl : lookupRoute tbl P Method.HEAD = some (w, P) :=
      add_implied_preserve ihs tbl1 tbl P Method.HEAD (w, P) h3 hlook1
    exact ⟨hl, resolve (w, P) hl⟩

end C3Main
end FromRequest
namespace FromRequest







/-- C3 as stated is false on the code: in the table with OPTIONS `*` and
GET `/a*b` (no HEAD declared anywhere, so the claim's hypotheses hold and
an implied HEAD for `/a*b` is even added), a HEAD request to `/a*b` does
NOT resolve to the GET variant: the unanchored `*` matcher matches the
path first, and the request fails with WrongMethod [OPTIONS]. -/
theorem implicit_head_asterisk_counterexample :
    ((do
      let star ← RoutePath.parse "*"
      let lit ← RoutePath.parse "/a*b"
      let tbl ← PathMap.build [(plainLeaf "Star", Method.OPTIONS, star),
                               (plainLeaf "G", Method.GET, lit)]
      pure ((Router.mk tbl .noFallback).from_request ⟨.HEAD, "/a*b", none⟩ [])) :
        Except String (List String × Except RErr Val))
      = .ok ([], .error (.wrongMethod [.OPTIONS])) := by decide

/-- Witness for the amended C3, on the `implicit_head_route` test table:
the implied HEAD of `/` is `Index`, and the explicit HEAD `OtherHead` of
`/2/other` is used instead of an implied one. -/
theorem implicit_head_amended_witness :
    lookupRoute c3table rootPath Method.HEAD = some ("Index", rootPath) ∧
    lookupRoute c3table otherPath Method.HEAD = some ("OtherHead", otherPath) := by
  have hb : PathMap.build c3entries = .ok c3table := by decide
  have hno : ∀ (w : String) (Q : RoutePath), (w, Method.HEAD, Q) ∈ c3entries →
      Q.find_overlap rootPath = .ok none := by
    intro w Q h
    simp only [c3entries, List.mem_cons, List.mem_singleton] at h
    rcases h with h | h | h | h
    · injection h with h1 h2; injection h2 with h2 h3; cases h2
    · injection h with h1 h2; injection h2 with h2 h3; cases h2
    · injection h with h1 h2; injection h2 with h2 h3
      subst h3; decide
    · cases h
  exact ⟨((implicit_head_amended c3entries c3table rootPath hb).1 "Index"
      (by decide) hno).1,
    ((implicit_head_amended c3entries c3table otherPath hb).2 "OtherHead"
      (by decide)).1⟩

end FromRequest
